import Mathlib

/-!
Verification development for the LinguaMaster repository: a shallow embedding
of its text-segmentation engine, selection resolver, lookup service and
React-state handlers, together with theorems settling the specified
properties.

Strings are modelled code-point-wise as `List Char` where the tokenizer is
concerned and as Lean `String` for UI state.  The Unicode character classes
of the splitting regex (`\p{L}\p{N}`, `\s`) are modelled by a classifier
function `Char → CharClass`; theorems that do not depend on the concrete
classes are proved for an arbitrary classifier, and concrete examples use
`charClass`, which is exact on the ASCII inputs they involve.
-/

set_option maxHeartbeats 1600000
set_option maxRecDepth 16000

namespace AIProjects

/-- The three disjoint character classes of `wordSplitRegex =
`([\p{L}\p{N}]+)|(\s+)|([^\p{L}\p{N}\s]+)` (App source, line 75): the three
alternatives cover every code point, so each code point has exactly one
class. -/
inductive CharClass : Type
  | word
  | whitespace
  | punctuation
deriving DecidableEq, Repr

/-- The `type` field of `ProcessedTextPart` (types source, line 41):
`'word' | 'whitespace' | 'punctuation'`. -/
inductive PartType : Type
  | word
  | whitespace
  | punctuation
deriving DecidableEq, Repr

/-- The part kind produced from a run of a given character class
(the three regex-group branches of the tokenization effect, lines 94-114). -/
def classType : CharClass → PartType
  | .word => .word
  | .whitespace => .whitespace
  | .punctuation => .punctuation

/-- Structure `ProcessedTextPart` (types source, lines 40-45).  `value` is the raw
text of the part; `originalWord` is the lower-cased lookup key, present only
for word parts; `id` is the React key built at push time. -/
structure ProcessedTextPart where
  type : PartType
  value : List Char
  originalWord : Option (List Char)
  id : String
deriving DecidableEq, Repr

/-- Classifier realizing the regex classes `\p{L}\p{N}` / `\s` / other.
`Char.isAlphanum` and `Char.isWhitespace` are exact on ASCII, which is all
the concrete examples use; class-independent theorems are stated for an
arbitrary classifier instead. -/
def charClass (c : Char) : CharClass :=
  if c.isAlphanum then .word
  else if c.isWhitespace then .whitespace
  else .punctuation

/-- Accumulator pass splitting the input into maximal runs of equal class,
mirroring repeated `wordSplitRegex.exec` (lines 91-116): at each position the
regex matches the maximal run of the class of the current code point.
`acc` is the reversed current run, `k` its class. -/
def chunkRunsAux (cls : Char → CharClass) : List Char → CharClass → List Char → List (CharClass × List Char)
  | [], k, acc => [(k, acc.reverse)]
  | c :: rest, k, acc =>
      if cls c = k then chunkRunsAux cls rest k (c :: acc)
      else (k, acc.reverse) :: chunkRunsAux cls rest (cls c) [c]

/-- The maximal same-class runs of the input, in order, each tagged with its
class. -/
def chunkRuns (cls : Char → CharClass) : List Char → List (CharClass × List Char)
  | [] => []
  | c :: rest => chunkRunsAux cls rest (cls c) [c]

/-- Build one `ProcessedTextPart` from a run, mirroring the three push
branches of the tokenization effect (lines 94-114): word runs store the
lower-cased form as `originalWord` and ids are `word-{index}-{cleaned}`,
`ws-{index}`, `punct-{index}` where the index is `parts.length` at push
time, i.e. the position of the part. -/
def partOfChunk (i : Nat) (k : CharClass) (chunk : List Char) : ProcessedTextPart :=
  match k with
  | .word =>
      { type := .word, value := chunk,
        originalWord := some (chunk.map Char.toLower),
        id := "word-" ++ toString i ++ "-" ++ String.mk (chunk.map Char.toLower) }
  | .whitespace =>
      { type := .whitespace, value := chunk, originalWord := none,
        id := "ws-" ++ toString i }
  | .punctuation =>
      { type := .punctuation, value := chunk, originalWord := none,
        id := "punct-" ++ toString i }

/-- The tokenization effect (App source, lines 85-117) as a pure function:
split into maximal class runs and build a part from each, indexed by
position. -/
def tokenize (cls : Char → CharClass) (l : List Char) : List ProcessedTextPart :=
  (chunkRuns cls l).enum.map (fun q => partOfChunk q.1 q.2.1 q.2.2)

theorem chunkRunsAux_join (cls : Char → CharClass) :
    ∀ (rest : List Char) (k : CharClass) (acc : List Char),
      ((chunkRunsAux cls rest k acc).map (fun q => q.2)).flatten = acc.reverse ++ rest := by
  intro rest
  induction rest with
  | nil => intro k acc; simp [chunkRunsAux]
  | cons c rest ih =>
      intro k acc
      by_cases h : cls c = k
      · simp [chunkRunsAux, h, ih]
      · simp [chunkRunsAux, h, ih]

theorem partOfChunk_value (i : Nat) (k : CharClass) (chunk : List Char) :
    (partOfChunk i k chunk).value = chunk := by
  cases k <;> rfl

theorem enumFrom_map_value (f : Nat → CharClass × List Char → ProcessedTextPart)
    (hf : ∀ i q, (f i q).value = q.2) :
    ∀ (n : Nat) (qs : List (CharClass × List Char)),
      ((qs.enumFrom n).map (fun p => (f p.1 p.2).value)) = qs.map (fun q => q.2) := by
  intro n qs
  induction qs generalizing n with
  | nil => rfl
  | cons q qs ih =>
      show (f n q).value :: ((qs.enumFrom (n + 1)).map (fun p => (f p.1 p.2).value))
          = q.2 :: qs.map (fun q => q.2)
      rw [hf, ih]

theorem tokenize_values (cls : Char → CharClass) (l : List Char) :
    (tokenize cls l).map (fun p => p.value) = (chunkRuns cls l).map (fun q => q.2) := by
  unfold tokenize
  rw [List.map_map, List.enum]
  exact enumFrom_map_value (fun i q => partOfChunk i q.1 q.2)
    (fun i q => partOfChunk_value i q.1 q.2) 0 (chunkRuns cls l)

/-- C3 — Round-trip: for every classifier and every input, the `value`
(raw text) fields of the tokenization concatenate, in order, back to the
input exactly; and the empty input tokenizes to the empty part sequence. -/
theorem tokenize_roundtrip :
    (∀ (cls : Char → CharClass) (l : List Char),
        ((tokenize cls l).map (fun p => p.value)).flatten = l) ∧
    (∀ cls : Char → CharClass, tokenize cls [] = []) := by
  constructor
  · intro cls l
    rw [tokenize_values]
    cases l with
    | nil => rfl
    | cons c rest =>
        show ((chunkRunsAux cls rest (cls c) [c]).map (fun q => q.2)).flatten = c :: rest
        rw [chunkRunsAux_join]
        rfl
  · intro cls
    rfl

theorem chunkRunsAux_mem (cls : Char → CharClass) :
    ∀ (rest : List Char) (k : CharClass) (acc : List Char),
      acc ≠ [] → (∀ c ∈ acc, cls c = k) →
      ∀ q ∈ chunkRunsAux cls rest k acc, q.2 ≠ [] ∧ ∀ c ∈ q.2, cls c = q.1 := by
  intro rest
  induction rest with
  | nil =>
      intro k acc hne hall q hq
      rw [chunkRunsAux, List.mem_singleton] at hq
      subst hq
      refine ⟨by simpa using hne, ?_⟩
      intro c hc
      exact hall c (List.mem_reverse.mp hc)
  | cons c rest ih =>
      intro k acc hne hall q hq
      by_cases h : cls c = k
      · rw [chunkRunsAux, if_pos h] at hq
        refine ih k (c :: acc) (by simp) ?_ q hq
        intro d hd
        rcases List.mem_cons.mp hd with h1 | h2
        · rw [h1]; exact h
        · exact hall d h2
      · rw [chunkRunsAux, if_neg h] at hq
        rcases List.mem_cons.mp hq with h1 | h2
        · subst h1
          refine ⟨by simpa using hne, ?_⟩
          intro d hd
          exact hall d (List.mem_reverse.mp hd)
        · refine ih (cls c) [c] (by simp) ?_ q h2
          intro d hd
          rw [List.mem_singleton.mp hd]

theorem chunkRunsAux_headClass (cls : Char → CharClass) :
    ∀ (rest : List Char) (k : CharClass) (acc : List Char),
      ∃ ch t, chunkRunsAux cls rest k acc = (k, ch) :: t := by
  intro rest
  induction rest with
  | nil => intro k acc; exact ⟨acc.reverse, [], rfl⟩
  | cons c rest ih =>
      intro k acc
      by_cases h : cls c = k
      · rw [chunkRunsAux, if_pos h]; exact ih k (c :: acc)
      · rw [chunkRunsAux, if_neg h]; exact ⟨acc.reverse, _, rfl⟩

theorem chunkRunsAux_chain (cls : Char → CharClass) :
    ∀ (rest : List Char) (k : CharClass) (acc : List Char),
      List.Chain' (fun a b => a.1 ≠ b.1) (chunkRunsAux cls rest k acc) := by
  intro rest
  induction rest with
  | nil => intro k acc; rw [chunkRunsAux]; exact List.chain'_singleton _
  | cons c rest ih =>
      intro k acc
      by_cases h : cls c = k
      · rw [chunkRunsAux, if_pos h]; exact ih k (c :: acc)
      · rw [chunkRunsAux, if_neg h]
        obtain ⟨ch, t, ht⟩ := chunkRunsAux_headClass cls rest (cls c) [c]
        rw [ht]
        refine List.chain'_cons.mpr ⟨?_, ?_⟩
        · intro hk; exact h hk.symm
        · rw [← ht]; exact ih (cls c) [c]

theorem enumFrom_mem {α : Type} :
    ∀ (n : Nat) (qs : List α) (q : Nat × α), q ∈ qs.enumFrom n → q.2 ∈ qs := by
  intro n qs
  induction qs generalizing n with
  | nil => intro q hq; cases hq
  | cons x xs ih =>
      intro q hq
      rcases List.mem_cons.mp hq with h1 | h2
      · rw [h1]; exact List.mem_cons_self _ _
      · exact List.mem_cons_of_mem _ (ih (n + 1) q h2)

theorem partOfChunk_type (i : Nat) (k : CharClass) (chunk : List Char) :
    (partOfChunk i k chunk).type = classType k := by
  cases k <;> rfl

theorem classType_inj {k k' : CharClass} (h : classType k = classType k') : k = k' := by
  cases k <;> cases k' <;> first | rfl | exact absurd h (by decide)

theorem chunkRuns_mem (cls : Char → CharClass) (l : List Char) :
    ∀ q ∈ chunkRuns cls l, q.2 ≠ [] ∧ ∀ c ∈ q.2, cls c = q.1 := by
  cases l with
  | nil => intro q hq; cases hq
  | cons c rest =>
      exact chunkRunsAux_mem cls rest (cls c) [c] (by simp)
        (by intro d hd; rw [List.mem_singleton.mp hd])

theorem chain_enumFrom {α : Type} (S : α → α → Prop) :
    ∀ (n : Nat) (l : List α), List.Chain' S l →
      List.Chain' (fun a b : Nat × α => S a.2 b.2) (l.enumFrom n) := by
  intro n l
  induction l generalizing n with
  | nil => intro _; exact List.chain'_nil
  | cons x xs ih =>
      intro h
      cases xs with
      | nil => exact List.chain'_singleton _
      | cons y ys =>
          have h1 := List.chain'_cons.mp h
          refine List.chain'_cons.mpr ⟨h1.1, ?_⟩
          exact ih (n + 1) h1.2

theorem tokenize_chain (cls : Char → CharClass) (l : List Char) :
    List.Chain' (fun a b => a.type ≠ b.type) (tokenize cls l) := by
  unfold tokenize
  rw [List.chain'_map]
  have h0 : List.Chain' (fun a b : CharClass × List Char => a.1 ≠ b.1) (chunkRuns cls l) := by
    cases l with
    | nil => exact List.chain'_nil
    | cons c rest => exact chunkRunsAux_chain cls rest (cls c) [c]
  rw [List.enum]
  refine List.Chain'.imp ?_ (chain_enumFrom _ 0 (chunkRuns cls l) h0)
  intro a b hab
  rw [partOfChunk_type, partOfChunk_type]
  intro he
  exact hab (classType_inj he)

/-- C4 — Classification: every part of a tokenization is a nonempty run of
code points all of the part's class, word parts carry the lower-cased form
as the lookup key (`originalWord`), adjacent parts have different kinds
(each part is a maximal run), and `"Hello, world! 42"` tokenizes to exactly
the seven listed parts with the stated kinds and boundaries. -/
theorem tokenize_classification :
    (∀ (cls : Char → CharClass) (l : List Char) (p : ProcessedTextPart), p ∈ tokenize cls l →
        p.value ≠ [] ∧ (∀ c ∈ p.value, classType (cls c) = p.type) ∧
        (p.type = PartType.word → p.originalWord = some (p.value.map Char.toLower))) ∧
    (∀ (cls : Char → CharClass) (l : List Char),
        List.Chain' (fun a b => a.type ≠ b.type) (tokenize cls l)) ∧
    tokenize charClass ("Hello, world! 42".data) =
      [⟨PartType.word, "Hello".data, some "hello".data, "word-0-hello"⟩,
       ⟨PartType.punctuation, ",".data, none, "punct-1"⟩,
       ⟨PartType.whitespace, " ".data, none, "ws-2"⟩,
       ⟨PartType.word, "world".data, some "world".data, "word-3-world"⟩,
       ⟨PartType.punctuation, "!".data, none, "punct-4"⟩,
       ⟨PartType.whitespace, " ".data, none, "ws-5"⟩,
       ⟨PartType.word, "42".data, some "42".data, "word-6-42"⟩] := by
  refine ⟨?_, tokenize_chain, by decide⟩
  intro cls l p hp
  unfold tokenize at hp
  obtain ⟨q, hq, hpq⟩ := List.mem_map.mp hp
  rw [List.enum] at hq
  have hmem : (q.2.1, q.2.2) ∈ chunkRuns cls l := by
    have := enumFrom_mem 0 (chunkRuns cls l) q hq
    simpa using this
  obtain ⟨hne, hall⟩ := chunkRuns_mem cls l _ hmem
  subst hpq
  refine ⟨?_, ?_, ?_⟩
  · rw [partOfChunk_value]; exact hne
  · intro c hc
    rw [partOfChunk_value] at hc
    rw [partOfChunk_type, hall c hc]
  · intro htype
    rw [partOfChunk_type] at htype
    have hk : q.2.1 = CharClass.word := by
      cases hcase : q.2.1 <;> rw [hcase] at htype <;> first | rfl | exact absurd htype (by decide)
    rw [hk]
    rfl

/-- The word part for `"Hello"` in the tokenization of `"Hello, world! 42"`,
used to instantiate `tokenize_classification`. -/
def helloPart : ProcessedTextPart :=
  ⟨PartType.word, "Hello".data, some "hello".data, "word-0-hello"⟩

theorem tokenize_classification_witness :
    helloPart ∈ tokenize charClass ("Hello, world! 42".data) ∧
    (helloPart.value ≠ [] ∧ (∀ c ∈ helloPart.value, classType (charClass c) = helloPart.type) ∧
      (helloPart.type = PartType.word →
        helloPart.originalWord = some (helloPart.value.map Char.toLower))) :=
  ⟨by decide, tokenize_classification.1 charClass ("Hello, world! 42".data) helloPart (by decide)⟩

/-- The spec's `PhraseResolution` classification (§4.2). -/
inductive PhraseResolution : Type
  | noSelection
  | nonWordSelection
  | singleWord (p : ProcessedTextPart)
  | phrase (ps : List ProcessedTextPart)
deriving DecidableEq, Repr

/-- The word parts covered by a (normalized) selection span: the inclusive
slice `parts[min..max]` filtered to word-kind parts, mirroring
`relevantParts` / `selectedWordParts` in `handleMouseUp` (lines 263-267). -/
def wordPartsInSpan (i j : Nat) (parts : List ProcessedTextPart) : List ProcessedTextPart :=
  ((parts.drop (min i j)).take (max i j + 1 - min i j)).filter
    (fun p => decide (p.type = PartType.word))

/-- Follows the spec's words (resolver algorithm, §4.2), to be compared with
the source embedding `handleMouseUpLookup`: normalize the span to
`min`/`max`, reject unmapped endpoints, slice inclusively, filter to word
parts, classify by count (0 / 1 / ≥2). -/
def specResolve (startIdx endIdx : Option Nat) (parts : List ProcessedTextPart) :
    PhraseResolution :=
  match startIdx, endIdx with
  | some i, some j =>
      match ((parts.drop (min i j)).take (max i j + 1 - min i j)).filter
          (fun p => decide (p.type = PartType.word)) with
      | [] => .nonWordSelection
      | [p] => .singleWord p
      | ps => .phrase ps
  | _, _ => .noSelection

/-- The decision logic of `handleMouseUp` (App source, lines 251-277) on the
part indices recovered for the two selection endpoints (`none` models a
missing `data-part-index`, i.e. `parseInt(... || '-1') = -1`, lines
254-261): returns the phrase text passed to `handleTermClick` (the word
parts' raw values joined by single spaces, line 270), or `none` when no
lookup is triggered (fewer than two word parts in the span). -/
def handleMouseUpLookup (startIdx endIdx : Option Nat)
    (parts : List ProcessedTextPart) : Option (List Char) :=
  match startIdx, endIdx with
  | some si, some ei =>
      let actualStartIdx := min si ei
      let actualEndIdx := max si ei
      let relevantParts := (parts.drop actualStartIdx).take (actualEndIdx + 1 - actualStartIdx)
      let selectedWordParts := relevantParts.filter (fun p => decide (p.type = PartType.word))
      if 2 ≤ selectedWordParts.length then
        some (List.intercalate [' '] (selectedWordParts.map (fun p => p.value)))
      else none
  | _, _ => none

theorem resolver_agreement_core (ws : List ProcessedTextPart) :
    (if 2 ≤ ws.length then some (List.intercalate [' '] (ws.map (fun p => p.value)))
     else none) =
      (match (match ws with
              | [] => PhraseResolution.nonWordSelection
              | [p] => PhraseResolution.singleWord p
              | ps => PhraseResolution.phrase ps) with
       | .phrase ps => some (List.intercalate [' '] (ps.map (fun p => p.value)))
       | _ => none) := by
  match ws with
  | [] => rfl
  | [p] => rfl
  | p :: q :: t =>
      rw [if_pos]
      simp [List.length_cons]

/-- The parts of `"the quick fox"` (indices 0=the, 1=space, 2=quick,
3=space, 4=fox), used in the resolver examples. -/
def exampleParts : List ProcessedTextPart :=
  tokenize charClass ("the quick fox".data)

/-- The word part for `"the"` in `exampleParts`. -/
def thePart : ProcessedTextPart :=
  ⟨PartType.word, "the".data, some "the".data, "word-0-the"⟩

/-- C2 — Selection resolution: the resolver normalizes the span to
min/max, returns `NoSelection` on an unmapped endpoint, takes the
inclusive slice, keeps word parts in order and classifies by count
(0 / 1 / ≥2); `handleMouseUp` realizes it, triggering a lookup exactly for
the `Phrase` case with the space-joined word values; span `(0,0)` over
`"the quick fox"` yields `SingleWord("the")`, `(0,4)` yields the
three-word `Phrase`, `(1,1)` yields `NonWordSelection`, and an unmapped
endpoint yields `NoSelection`. -/
theorem selection_resolution :
    (∀ (startIdx endIdx : Option Nat) (parts : List ProcessedTextPart),
        handleMouseUpLookup startIdx endIdx parts =
          (match specResolve startIdx endIdx parts with
           | .phrase ps => some (List.intercalate [' '] (ps.map (fun p => p.value)))
           | _ => none)) ∧
    (∀ (i j : Nat) (parts : List ProcessedTextPart),
        specResolve (some i) (some j) parts =
          specResolve (some (min i j)) (some (max i j)) parts) ∧
    (∀ (e : Option Nat) (parts : List ProcessedTextPart),
        specResolve none e parts = .noSelection ∧ specResolve e none parts = .noSelection) ∧
    (∀ (i j : Nat) (parts : List ProcessedTextPart),
        (wordPartsInSpan i j parts = [] →
          specResolve (some i) (some j) parts = .nonWordSelection) ∧
        (∀ p, wordPartsInSpan i j parts = [p] →
          specResolve (some i) (some j) parts = .singleWord p) ∧
        (2 ≤ (wordPartsInSpan i j parts).length →
          specResolve (some i) (some j) parts = .phrase (wordPartsInSpan i j parts))) ∧
    (specResolve (some 0) (some 4) exampleParts =
        .phrase [thePart,
          ⟨PartType.word, "quick".data, some "quick".data, "word-2-quick"⟩,
          ⟨PartType.word, "fox".data, some "fox".data, "word-4-fox"⟩] ∧
      specResolve (some 0) (some 0) exampleParts = .singleWord thePart ∧
      specResolve (some 1) (some 1) exampleParts = .nonWordSelection ∧
      specResolve none (some 2) exampleParts = .noSelection ∧
      handleMouseUpLookup (some 0) (some 4) exampleParts = some ("the quick fox".data)) := by
  refine ⟨?_, ?_, ?_, ?_, by decide⟩
  · intro si ei parts
    cases si with
    | none => cases ei <;> rfl
    | some i =>
        cases ei with
        | none => rfl
        | some j =>
            exact resolver_agreement_core
              (((parts.drop (min i j)).take (max i j + 1 - min i j)).filter
                (fun p => decide (p.type = PartType.word)))
  · intro i j parts
    have h1 : min (min i j) (max i j) = min i j := min_eq_left (min_le_max)
    have h2 : max (min i j) (max i j) = max i j := max_eq_right (min_le_max)
    simp only [specResolve, h1, h2]
  · intro e parts
    cases e <;> exact ⟨rfl, rfl⟩
  · intro i j parts
    refine ⟨?_, ?_, ?_⟩
    · intro h
      simp only [specResolve]
      rw [show ((parts.drop (min i j)).take (max i j + 1 - min i j)).filter
          (fun p => decide (p.type = PartType.word)) = wordPartsInSpan i j parts from rfl, h]
    · intro p h
      simp only [specResolve]
      rw [show ((parts.drop (min i j)).take (max i j + 1 - min i j)).filter
          (fun p => decide (p.type = PartType.word)) = wordPartsInSpan i j parts from rfl, h]
    · intro h
      simp only [specResolve]
      rw [show ((parts.drop (min i j)).take (max i j + 1 - min i j)).filter
          (fun p => decide (p.type = PartType.word)) = wordPartsInSpan i j parts from rfl]
      match hws : wordPartsInSpan i j parts, h with
      | p :: q :: t, _ => rfl

theorem selection_resolution_witness :
    wordPartsInSpan 0 0 exampleParts = [thePart] ∧
    specResolve (some 0) (some 0) exampleParts = .singleWord thePart :=
  ⟨by decide, (selection_resolution.2.2.2.1 0 0 exampleParts).2.1 thePart (by decide)⟩

/-- The `Language` enum (types source, lines 1-15). -/
inductive Language : Type
  | ENGLISH
  | SPANISH
  | FRENCH
  | GERMAN
  | ITALIAN
  | PORTUGUESE
  | HEBREW
  | ARABIC
  | CHINESE
  | JAPANESE
  | KOREAN
  | RUSSIAN
  | HINDI
deriving DecidableEq, Repr

/-- Structure `WordDetail` (types source, lines 22-30).  All fields are modelled as
optional because the service casts the parsed JSON to `WordDetail` without
runtime validation (`JSON.parse(cleanJsonStr) as WordDetail`, service line
167), so any field may be absent at runtime even though the TS interface
marks `definition` and `exampleSentences` required. -/
structure WordDetail where
  definition : Option String
  pronunciation : Option String
  exampleSentences : Option (List String)
  partOfSpeech : Option String
  relatedWords : Option (List String)
  translation : Option String
  audioBase64 : Option String
deriving DecidableEq, Repr

/-- Structure `SavedWord` (types source, lines 32-38). -/
structure SavedWord where
  term : String
  sourceLanguage : Language
  targetLanguage : Language
  details : WordDetail
  savedAt : Nat
deriving DecidableEq, Repr

/-- Outcome of one provider promise: it either resolves with a value or
rejects (throws). -/
inductive CallResult (α : Type) : Type
  | resolved (val : α)
  | rejected
deriving DecidableEq, Repr

/-- JS `audioBase64 || undefined` (service line 179): an empty string is
falsy, so it is replaced by `undefined` like a missing payload. -/
def jsOrUndefined : Option String → Option String
  | some s => if s.isEmpty then none else some s
  | none => none

/-- Function `getTermDetails` (service source, lines 86-188) as a function of the
outcomes of its two provider calls.  The text call's `.resolved none`
models a response body that failed `JSON.parse` (the `JSON_PARSE_ERROR`
rethrow, lines 166-172); `.resolved (some d)` a parsable payload (cast
unchecked).  `Promise.all` (line 156) rejects if either call rejects, and
the catch block (lines 181-187) returns `null` on every error path, so the
function never throws to its caller. -/
def getTermDetails (textCall : CallResult (Option WordDetail))
    (audioCall : CallResult (Option String)) : Option WordDetail :=
  match textCall, audioCall with
  | .resolved parsed, .resolved audioData =>
      match parsed with
      | some textWordDetail => some { textWordDetail with audioBase64 := jsOrUndefined audioData }
      | none => none
  | _, _ => none

/-- Whether the response schema sent with the text request contains a
`translation` property: the conditional spread
`...(sourceLanguage !== targetLanguage && { translation: ... })` (service
lines 122-124). -/
def textResponseSchemaIncludesTranslation (sourceLanguage targetLanguage : Language) : Bool :=
  decide (sourceLanguage ≠ targetLanguage)

/-- Whether the text prompt asks for a translation: the conditional item 6
of the prompt (service line 100). -/
def textPromptRequestsTranslation (sourceLanguage targetLanguage : Language) : Bool :=
  decide (sourceLanguage ≠ targetLanguage)

/-- The provider is configured with `responseSchema` (service lines
132-135), so its payload only carries fields present in the requested
schema; for the `translation` field this is the conformance the merge
relies on. -/
def ConformsToRequestedSchema (sourceLanguage targetLanguage : Language) (d : WordDetail) : Prop :=
  d.translation.isSome → textResponseSchemaIncludesTranslation sourceLanguage targetLanguage = true

/-- The user-facing message set when `getTermDetails` returns `null`
(App source, line 158). -/
def malformedResponseMessage : String :=
  "The AI could not process this phrase into the requested format. This might happen with very complex or unusual phrases. Please try a simpler phrase or individual words."

/-- The user-facing message set by `handleTermClick`'s catch block
(App source, line 163). -/
def providerErrorMessage : String :=
  "An unexpected error occurred while fetching term details. Please try again."

/-- Memo `effectiveSourceLanguage` (App source, lines 136-138):
`detectedSourceLanguage || Language.ENGLISH`. -/
def effectiveSourceLanguage (detected : Option Language) : Language :=
  detected.getD Language.ENGLISH

/-- Truthiness of `inputText.trim()` (App line 123): the trimmed string is
non-empty iff some code point of the text is not whitespace. -/
def trimmedNonempty (t : String) : Bool :=
  t.data.any (fun c => !c.isWhitespace)

/-- The mutable state of `App` (App source, lines 57-69) plus the pending
asynchronous work of the environment: the owned debounce timer of the
detection effect (lines 132-133, holding the captured input text), the
outstanding `detectLanguage` calls (line 125, FIFO), and the outstanding
`getTermDetails` calls with the arguments they were issued with (line 153,
FIFO). -/
structure AppState where
  inputText : String
  detectedSourceLanguage : Option Language
  isDetectingLanguage : Bool
  targetLanguage : Language
  processedTextParts : List ProcessedTextPart
  selectedTerm : Option String
  wordDetails : Option WordDetail
  isModalOpen : Bool
  isLoading : Bool
  error : Option String
  savedWords : List SavedWord
  pendingDetectTimer : Option String
  pendingDetectCalls : List String
  pendingLookups : List (String × Language × Language)
deriving DecidableEq, Repr

/-- The `isAlreadySaved` check of `handleSaveWord` (App source, lines 190-192):
some entry shares `(term, sourceLanguage)`; `targetLanguage` is not part of
the key. -/
def isAlreadySaved (savedWords : List SavedWord) (term : String) (lang : Language) : Bool :=
  savedWords.any (fun sw => sw.term == term && sw.sourceLanguage == lang)

/-- The entries of a saved-words list sharing a `(term, sourceLanguage)`
pair. -/
def pairEntries (savedWords : List SavedWord) (term : String) (lang : Language) : List SavedWord :=
  savedWords.filter (fun sw => sw.term == term && sw.sourceLanguage == lang)

/-- Handler `handleSaveWord` (App source, lines 188-206): guarded by the truthiness
of `selectedTerm` (a non-empty string) and `wordDetails` and by
`!isLoading`; keyed by `(term, effectiveSourceLanguage)`; appends a new
entry only when the pair is absent, otherwise a no-op. -/
def handleSaveWord (s : AppState) (now : Nat) : AppState :=
  match s.selectedTerm, s.wordDetails with
  | some term, some details =>
      if term.isEmpty || s.isLoading then s
      else if isAlreadySaved s.savedWords term (effectiveSourceLanguage s.detectedSourceLanguage) then s
      else { s with savedWords := s.savedWords ++
          [⟨term, effectiveSourceLanguage s.detectedSourceLanguage, s.targetLanguage, details, now⟩] }
  | _, _ => s

/-- The events driving the state: user edits and clicks, the debounce timer
firing, and the settling of outstanding provider calls (single-threaded
event loop, so each event's handler runs atomically). -/
inductive AppEvent : Type
  | setInput (t : String)
  | detectTimerFire
  | detectCallReturn (lang : Option Language)
  | termClick (term : String) (sourceLang targetLang : Language)
  | lookupReturn (result : Option WordDetail)
  | lookupThrow
  | saveWord (now : Nat)
  | removeWord (term : String) (lang : Language)
  | clearInput
  | closeModal

/-- One event-loop step of `App`.
`setInput`: the controlled input updates `inputText` (line 294) and the two
effects re-run: the tokenization effect (lines 78-118, resetting parts and
the detected language on empty input) and the detection effect's cleanup
plus reschedule (lines 121-134), which replaces the owned timer with one
capturing the new text.
`detectTimerFire`: the debounce elapses; `autoDetect` (lines 122-131) either
starts a `detectLanguage` call (non-blank text: `isDetecting := true`) or
just clears the detected language.
`detectCallReturn`: an outstanding `detectLanguage` call resolves (it never
rejects: its catch returns `null`, service lines 72-75); the continuation
applies the answer and clears `isDetecting` unconditionally (lines
126-127).
`termClick`: `handleTermClick` entry (lines 140-151) — select the term,
clear result and error, open the modal, start loading, and issue
`getTermDetails(term, sourceLang, targetLang)`.
`lookupReturn`/`lookupThrow`: the awaited `getTermDetails` settles; the
continuation (lines 152-166) applies the outcome unconditionally — there is
no check that the settling call's term is still the selected one.
`saveWord`/`removeWord`: `handleSaveWord` (lines 188-206) and
`handleRemoveWord` (lines 208-212).
`clearInput`: `clearInput` (lines 176-186); setting `inputText` to `''`
also re-runs the detection effect, rescheduling the timer for the empty
text.
`closeModal`: `handleCloseModal` (lines 169-174). -/
def step (s : AppState) : AppEvent → AppState
  | .setInput t =>
      if t.isEmpty then
        { s with inputText := t, processedTextParts := [], detectedSourceLanguage := none,
                 pendingDetectTimer := some t }
      else
        { s with inputText := t, processedTextParts := tokenize charClass t.data,
                 pendingDetectTimer := some t }
  | .detectTimerFire =>
      match s.pendingDetectTimer with
      | none => s
      | some t =>
          if trimmedNonempty t then
            { s with pendingDetectTimer := none, isDetectingLanguage := true,
                     pendingDetectCalls := s.pendingDetectCalls ++ [t] }
          else
            { s with pendingDetectTimer := none, detectedSourceLanguage := none }
  | .detectCallReturn lang =>
      match s.pendingDetectCalls with
      | [] => s
      | _ :: rest =>
          { s with detectedSourceLanguage := lang, isDetectingLanguage := false,
                   pendingDetectCalls := rest }
  | .termClick term sourceLang targetLang =>
      { s with selectedTerm := some term, wordDetails := none, isModalOpen := true,
               isLoading := true, error := none,
               pendingLookups := s.pendingLookups ++ [(term, sourceLang, targetLang)] }
  | .lookupReturn result =>
      match s.pendingLookups with
      | [] => s
      | _ :: rest =>
          match result with
          | some details =>
              { s with wordDetails := some details, isLoading := false, pendingLookups := rest }
          | none =>
              { s with error := some malformedResponseMessage, isLoading := false,
                       pendingLookups := rest }
  | .lookupThrow =>
      match s.pendingLookups with
      | [] => s
      | _ :: rest =>
          { s with error := some providerErrorMessage, isLoading := false,
                   pendingLookups := rest }
  | .saveWord now => handleSaveWord s now
  | .removeWord term lang =>
      { s with savedWords :=
          s.savedWords.filter (fun sw => !(sw.term == term && sw.sourceLanguage == lang)) }
  | .clearInput =>
      { s with inputText := "", processedTextParts := [], selectedTerm := none,
               wordDetails := none, isModalOpen := false, isLoading := false,
               error := none, detectedSourceLanguage := none,
               isDetectingLanguage := false, pendingDetectTimer := some "" }
  | .closeModal =>
      { s with isModalOpen := false, selectedTerm := none, wordDetails := none, error := none }

/-- The state after the initial mount: all `useState` initial values
(lines 57-69), with the detection effect having scheduled its first timer
for the empty input. -/
def initState : AppState :=
  { inputText := "", detectedSourceLanguage := none, isDetectingLanguage := false,
    targetLanguage := Language.ENGLISH, processedTextParts := [], selectedTerm := none,
    wordDetails := none, isModalOpen := false, isLoading := false, error := none,
    savedWords := [], pendingDetectTimer := some "", pendingDetectCalls := [],
    pendingLookups := [] }

/-- A concrete well-formed text payload used in scenarios. -/
def sampleDetailA : WordDetail :=
  ⟨some "a definition", none, some ["s1", "s2"], some "noun", none, none, none⟩

/-- C1 counterexample: lookup A (for `"alpha"`) is pending when lookup B
(for `"beta"`) starts; when A's call settles successfully its continuation
still runs `setWordDetails` (App lines 154-155) with no active-key check,
so A's result becomes the displayed detail while `"beta"` is the selected
term — and a subsequent save stores A's details under `"beta"`. -/
theorem lookup_preemption_counterexample :
    (let s2 := step (step initState (.termClick "alpha" Language.ENGLISH Language.ENGLISH))
        (.termClick "beta" Language.ENGLISH Language.ENGLISH)
     let s3 := step s2 (.lookupReturn (some sampleDetailA))
     let s4 := step s3 (.saveWord 7)
     s2.selectedTerm = some "beta" ∧ s2.wordDetails = none ∧
     s2.pendingLookups = [("alpha", Language.ENGLISH, Language.ENGLISH),
       ("beta", Language.ENGLISH, Language.ENGLISH)] ∧
     s3.selectedTerm = some "beta" ∧ s3.wordDetails = some sampleDetailA ∧
     s4.savedWords = [⟨"beta", Language.ENGLISH, Language.ENGLISH, sampleDetailA, 7⟩]) := by
  decide

/-- C1 amended: starting a new lookup replaces the tracked term and clears
the previous result and error, but a previously issued call's outcome is
not dropped when it settles afterwards: the continuation applies it to the
visible state unconditionally (last-settled-wins), leaving the newer term
selected. -/
theorem lookup_preemption_amended :
    ∀ (s : AppState) (termB : String) (srcB tgtB : Language) (d : WordDetail),
      (step s (.termClick termB srcB tgtB)).selectedTerm = some termB ∧
      (step s (.termClick termB srcB tgtB)).wordDetails = none ∧
      (step s (.termClick termB srcB tgtB)).error = none ∧
      (∀ c cs, s.pendingLookups = c :: cs →
        (step s (.lookupReturn (some d))).wordDetails = some d ∧
        (step s (.lookupReturn (some d))).selectedTerm = s.selectedTerm ∧
        (step s (.lookupReturn (some d))).isLoading = false) := by
  intro s termB srcB tgtB d
  refine ⟨rfl, rfl, rfl, ?_⟩
  intro c cs h
  simp [step, h]

theorem lookup_preemption_amended_witness :
    (let s1 := step initState (.termClick "alpha" Language.ENGLISH Language.ENGLISH)
     s1.pendingLookups = [("alpha", Language.ENGLISH, Language.ENGLISH)] ∧
     ((step s1 (.lookupReturn (some sampleDetailA))).wordDetails = some sampleDetailA ∧
      (step s1 (.lookupReturn (some sampleDetailA))).selectedTerm = s1.selectedTerm ∧
      (step s1 (.lookupReturn (some sampleDetailA))).isLoading = false)) :=
  ⟨by decide,
   (lookup_preemption_amended (step initState (.termClick "alpha" Language.ENGLISH Language.ENGLISH))
      "beta" Language.ENGLISH Language.ENGLISH sampleDetailA).2.2.2
     ("alpha", Language.ENGLISH, Language.ENGLISH) [] (by decide)⟩

/-- A concrete well-formed text payload (definition and example sentences
present). -/
def samplePayload : WordDetail :=
  ⟨some "a concise definition", some "prn", some ["e1", "e2", "e3"], some "noun",
    some ["syn", "ant"], none, none⟩

/-- C5 counterexample: the text call succeeds with a well-formed payload
but the audio call rejects; `Promise.all` (service line 156) then rejects,
the catch returns `null`, and the lookup fails (showing the
malformed-response message) instead of resolving without audio. -/
theorem audio_failure_counterexample :
    getTermDetails (.resolved (some samplePayload)) .rejected = none ∧
    (let s1 := step initState (.termClick "kappa" Language.ENGLISH Language.ENGLISH)
     (step s1 (.lookupReturn (getTermDetails (.resolved (some samplePayload)) .rejected))).error =
       some malformedResponseMessage) := by
  decide

/-- C5 amended: an audio call that resolves without a usable payload does
not fail the lookup — the merge returns the text payload with the audio
field omitted; but an audio call that rejects fails the whole lookup:
`Promise.all` rejects and `getTermDetails` returns `null`. -/
theorem audio_failure_amended :
    (∀ d : WordDetail,
        getTermDetails (.resolved (some d)) (.resolved none) = some { d with audioBase64 := none }) ∧
    (∀ (d : WordDetail) (a : String), a.isEmpty = false →
        getTermDetails (.resolved (some d)) (.resolved (some a)) = some { d with audioBase64 := some a }) ∧
    (∀ textCall : CallResult (Option WordDetail), getTermDetails textCall .rejected = none) := by
  refine ⟨fun d => rfl, ?_, ?_⟩
  · intro d a h
    simp [getTermDetails, jsOrUndefined, h]
  · intro textCall
    cases textCall <;> rfl

theorem audio_failure_amended_witness :
    ("QUJD" : String).isEmpty = false ∧
    getTermDetails (.resolved (some samplePayload)) (.resolved (some "QUJD")) =
      some { samplePayload with audioBase64 := some "QUJD" } :=
  ⟨by decide, audio_failure_amended.2.1 samplePayload "QUJD" (by decide)⟩

theorem messages_distinct : malformedResponseMessage ≠ providerErrorMessage := by
  decide

/-- C6 counterexample: a thrown provider/network exception in the text call
does not surface as the distinct provider-error message — `getTermDetails`
catches everything and returns `null` (service lines 181-187), so the
coordinator takes its `null` branch (App lines 156-159) and shows the
malformed-response message. -/
theorem failure_reason_counterexample :
    getTermDetails .rejected (.resolved (some "AUDIO")) = none ∧
    (let s1 := step initState (.termClick "kappa" Language.ENGLISH Language.ENGLISH)
     (step s1 (.lookupReturn (getTermDetails .rejected (.resolved (some "AUDIO"))))).error =
       some malformedResponseMessage) ∧
    malformedResponseMessage ≠ providerErrorMessage := by
  decide

/-- C6 amended: `getTermDetails` returns `null` on every failure (provider
exception or unparsable payload), so the coordinator surfaces the
malformed-response message for all of them and never the provider-error
message (that catch branch is unreachable for failures inside
`getTermDetails`); moreover parsable payloads are not validated against
required fields, so a structurally invalid payload resolves rather than
failing. -/
theorem failure_reason_amended :
    ∀ (textCall : CallResult (Option WordDetail)) (audioCall : CallResult (Option String))
      (s : AppState) (c : String × Language × Language) (cs : List (String × Language × Language)),
      s.pendingLookups = c :: cs → s.error = none →
      (getTermDetails textCall audioCall = none →
        (step s (.lookupReturn (getTermDetails textCall audioCall))).error =
          some malformedResponseMessage) ∧
      (step s (.lookupReturn (getTermDetails textCall audioCall))).error ≠
        some providerErrorMessage ∧
      (∀ (d : WordDetail) (a : Option String),
        (getTermDetails (.resolved (some d)) (.resolved a)).isSome = true) := by
  intro textCall audioCall s c cs hpend herr
  refine ⟨?_, ?_, ?_⟩
  · intro h0
    rw [h0]
    simp [step, hpend]
  · cases hr : getTermDetails textCall audioCall with
    | none =>
        simp [step, hpend]
        exact messages_distinct
    | some d =>
        simp [step, hpend, herr]
  · intro d a
    rfl

theorem failure_reason_amended_witness :
    (let s1 := step initState (.termClick "kappa" Language.ENGLISH Language.ENGLISH)
     s1.pendingLookups = [("kappa", Language.ENGLISH, Language.ENGLISH)] ∧ s1.error = none ∧
     ((getTermDetails CallResult.rejected (.resolved (none : Option String)) = none →
        (step s1 (.lookupReturn (getTermDetails CallResult.rejected (.resolved (none : Option String))))).error =
          some malformedResponseMessage) ∧
      (step s1 (.lookupReturn (getTermDetails CallResult.rejected (.resolved (none : Option String))))).error ≠
        some providerErrorMessage ∧
      (∀ (d : WordDetail) (a : Option String),
        (getTermDetails (.resolved (some d)) (.resolved a)).isSome = true))) :=
  ⟨by decide, by decide,
   failure_reason_amended CallResult.rejected (.resolved (none : Option String))
     (step initState (.termClick "kappa" Language.ENGLISH Language.ENGLISH))
     ("kappa", Language.ENGLISH, Language.ENGLISH) [] (by decide) (by decide)⟩

/-- C8 — Translation omission: when `sourceLanguage = targetLanguage` the
request's prompt does not ask for a translation and its response schema
carries no `translation` property; hence for every schema-conforming
provider payload the merged `WordDetail` (the merge only adds the audio
field, service lines 177-180) contains no `translation`. -/
theorem translation_omission :
    (∀ src : Language,
        textResponseSchemaIncludesTranslation src src = false ∧
        textPromptRequestsTranslation src src = false) ∧
    (∀ (sourceLanguage targetLanguage : Language) (payload d : WordDetail)
        (audioCall : CallResult (Option String)),
      sourceLanguage = targetLanguage →
      ConformsToRequestedSchema sourceLanguage targetLanguage payload →
      getTermDetails (.resolved (some payload)) audioCall = some d →
      d.translation = none) := by
  refine ⟨?_, ?_⟩
  · intro src
    constructor <;> simp [textResponseSchemaIncludesTranslation, textPromptRequestsTranslation]
  · intro src tgt payload d audioCall heq hconf hres
    subst heq
    have htr : payload.translation = none := by
      cases hp : payload.translation with
      | none => rfl
      | some v =>
          have h1 := hconf (by rw [hp]; rfl)
          simp [textResponseSchemaIncludesTranslation] at h1
    cases audioCall with
    | rejected => cases hres
    | resolved a =>
        have hd : ({ payload with audioBase64 := jsOrUndefined a } : WordDetail) = d := by
          injection hres
        rw [← hd]
        exact htr

theorem translation_omission_witness :
    (Language.SPANISH = Language.SPANISH) ∧
    ConformsToRequestedSchema Language.SPANISH Language.SPANISH samplePayload ∧
    getTermDetails (.resolved (some samplePayload)) (.resolved (none : Option String)) =
      some { samplePayload with audioBase64 := none } ∧
    ({ samplePayload with audioBase64 := none } : WordDetail).translation = none :=
  ⟨rfl, fun h => by simp [samplePayload] at h, by decide,
   translation_omission.2 Language.SPANISH Language.SPANISH samplePayload
     { samplePayload with audioBase64 := none } (.resolved (none : Option String))
     rfl (fun h => by simp [samplePayload] at h) (by decide)⟩

/-- C7 counterexample: type `"abc"`, let the debounce fire (a
`detectLanguage` call is now outstanding and `isDetecting = true`), then
clear the text.  The empty-input state keeps `isDetecting = true` (neither
effect resets it, App lines 78-83 and 121-134), and when the outstanding
call for `"abc"` later resolves its continuation still applies the result:
the detected language becomes Spanish while the input is empty. -/
theorem detection_reset_counterexample :
    (let s1 := step initState (.setInput "abc")
     let s2 := step s1 .detectTimerFire
     let s3 := step s2 (.setInput "")
     let s4 := step s3 (.detectCallReturn (some Language.SPANISH))
     s2.isDetectingLanguage = true ∧ s2.pendingDetectCalls = ["abc"] ∧
     s3.inputText = "" ∧ s3.detectedSourceLanguage = none ∧
     s3.isDetectingLanguage = true ∧
     s4.inputText = "" ∧ s4.detectedSourceLanguage = some Language.SPANISH ∧
     s4.isDetectingLanguage = false) := by
  decide

/-- C7 amended: when the input becomes empty the tokenization effect resets
the detected language to `null` and the detection effect replaces the
pending debounce schedule (the replacement, scheduled for the empty text,
only re-nulls the detection when it fires, without issuing a call); but
`isDetecting` is not reset and outstanding detection calls are not
dropped — a call's result is still applied (setting the detected language
and clearing `isDetecting`) when it resolves; only the explicit
`clearInput` action resets the pair to `(null, false)`. -/
theorem detection_reset_amended :
    ∀ s : AppState,
      ((step s (.setInput "")).detectedSourceLanguage = none ∧
       (step s (.setInput "")).pendingDetectTimer = some "" ∧
       (step s (.setInput "")).isDetectingLanguage = s.isDetectingLanguage ∧
       (step s (.setInput "")).pendingDetectCalls = s.pendingDetectCalls) ∧
      (∀ t : String, s.pendingDetectTimer = some t → trimmedNonempty t = false →
        (step s .detectTimerFire).detectedSourceLanguage = none ∧
        (step s .detectTimerFire).pendingDetectCalls = s.pendingDetectCalls ∧
        (step s .detectTimerFire).isDetectingLanguage = s.isDetectingLanguage) ∧
      (∀ (lang : Option Language) (c : String) (cs : List String),
        s.pendingDetectCalls = c :: cs →
        (step s (.detectCallReturn lang)).detectedSourceLanguage = lang ∧
        (step s (.detectCallReturn lang)).isDetectingLanguage = false) ∧
      ((step s .clearInput).detectedSourceLanguage = none ∧
       (step s .clearInput).isDetectingLanguage = false) := by
  intro s
  refine ⟨⟨rfl, rfl, rfl, rfl⟩, ?_, ?_, rfl, rfl⟩
  · intro t ht htrim
    simp [step, ht, htrim]
  · intro lang c cs h
    simp [step, h]

theorem detection_reset_amended_witness :
    (let s2 := step (step initState (.setInput "abc")) .detectTimerFire
     s2.pendingDetectCalls = "abc" :: [] ∧
     ((step s2 (.detectCallReturn (some Language.FRENCH))).detectedSourceLanguage =
        some Language.FRENCH ∧
      (step s2 (.detectCallReturn (some Language.FRENCH))).isDetectingLanguage = false)) :=
  ⟨by decide,
   (detection_reset_amended (step (step initState (.setInput "abc")) .detectTimerFire)).2.2.1
     (some Language.FRENCH) "abc" [] (by decide)⟩

theorem pairEntries_append (l₁ l₂ : List SavedWord) (t : String) (lang : Language) :
    pairEntries (l₁ ++ l₂) t lang = pairEntries l₁ t lang ++ pairEntries l₂ t lang := by
  simp [pairEntries, List.filter_append]

theorem isAlreadySaved_false_iff (l : List SavedWord) (t : String) (lang : Language) :
    isAlreadySaved l t lang = false ↔ pairEntries l t lang = [] := by
  rw [isAlreadySaved, pairEntries, List.any_eq_false, List.filter_eq_nil_iff]

/-- C9 — Save idempotence: with a displayed term and details and no load in
progress, saving twice for a `(term, sourceLanguage)` pair not yet present
leaves exactly one entry for the pair, carrying the first save's details
and timestamp (the second call is a no-op); and every event preserves the
invariant that at most one entry exists per pair. -/
theorem save_idempotent :
    (∀ (s : AppState) (t : String) (d : WordDetail) (n₁ n₂ : Nat),
        s.selectedTerm = some t → t.isEmpty = false → s.wordDetails = some d →
        s.isLoading = false →
        pairEntries s.savedWords t (effectiveSourceLanguage s.detectedSourceLanguage) = [] →
        (step (step s (.saveWord n₁)) (.saveWord n₂)).savedWords =
            (step s (.saveWord n₁)).savedWords ∧
        pairEntries (step (step s (.saveWord n₁)) (.saveWord n₂)).savedWords t
            (effectiveSourceLanguage s.detectedSourceLanguage) =
          [⟨t, effectiveSourceLanguage s.detectedSourceLanguage, s.targetLanguage, d, n₁⟩]) ∧
    (∀ (s : AppState) (e : AppEvent) (t : String) (lang : Language),
        (pairEntries s.savedWords t lang).length ≤ 1 →
        (pairEntries (step s e).savedWords t lang).length ≤ 1) := by
  constructor
  · intro s t d n₁ n₂ hsel hemp hwd hload hpair
    have hsaved : isAlreadySaved s.savedWords t
        (effectiveSourceLanguage s.detectedSourceLanguage) = false :=
      (isAlreadySaved_false_iff _ _ _).mpr hpair
    have hs1 : step s (.saveWord n₁) = { s with savedWords := s.savedWords ++
        [⟨t, effectiveSourceLanguage s.detectedSourceLanguage, s.targetLanguage, d, n₁⟩] } := by
      show handleSaveWord s n₁ = _
      simp [handleSaveWord, hsel, hwd, hemp, hload, hsaved]
    have hs2 : step (step s (.saveWord n₁)) (.saveWord n₂) = step s (.saveWord n₁) := by
      rw [hs1]
      show handleSaveWord _ n₂ = _
      simp [handleSaveWord, hsel, hwd, hemp, hload, isAlreadySaved]
    refine ⟨by rw [hs2], ?_⟩
    rw [hs2, hs1]
    show pairEntries (s.savedWords ++ _) _ _ = _
    rw [pairEntries_append, hpair]
    simp [pairEntries, List.filter]
  · intro s e t lang h
    cases e with
    | setInput t' =>
        cases ht : t'.isEmpty <;> simp only [step, ht] <;> simpa using h
    | detectTimerFire =>
        cases ht : s.pendingDetectTimer with
        | none => simpa [step, ht] using h
        | some t' =>
            cases htr : trimmedNonempty t' <;> simp only [step, ht, htr] <;> simpa using h
    | detectCallReturn lang' =>
        cases hc : s.pendingDetectCalls with
        | nil => simpa [step, hc] using h
        | cons c rest => simpa [step, hc] using h
    | termClick term src tgt => simpa [step] using h
    | lookupReturn r =>
        cases hp : s.pendingLookups with
        | nil => simpa [step, hp] using h
        | cons c rest => cases r <;> simpa [step, hp] using h
    | lookupThrow =>
        cases hp : s.pendingLookups with
        | nil => simpa [step, hp] using h
        | cons c rest => simpa [step, hp] using h
    | clearInput => simpa [step] using h
    | closeModal => simpa [step] using h
    | removeWord tm lg =>
        have hsub : List.Sublist (pairEntries ((step s (.removeWord tm lg)).savedWords) t lang)
            (pairEntries s.savedWords t lang) := by
          show List.Sublist (pairEntries
              (s.savedWords.filter (fun sw => !(sw.term == tm && sw.sourceLanguage == lg))) t lang)
            (pairEntries s.savedWords t lang)
          rw [pairEntries, pairEntries]
          exact List.Sublist.filter _ (List.filter_sublist _)
        exact le_trans hsub.length_le h
    | saveWord now =>
        show (pairEntries (handleSaveWord s now).savedWords t lang).length ≤ 1
        rw [handleSaveWord]
        cases hsel : s.selectedTerm with
        | none => exact h
        | some tm =>
            cases hwd : s.wordDetails with
            | none => exact h
            | some dd =>
                show (pairEntries
                    (if (tm.isEmpty || s.isLoading) = true then s
                     else if isAlreadySaved s.savedWords tm
                         (effectiveSourceLanguage s.detectedSourceLanguage) = true then s
                     else { s with selectedTerm := some tm, wordDetails := some dd,
                                   savedWords := s.savedWords ++
                                     [⟨tm, effectiveSourceLanguage s.detectedSourceLanguage,
                                       s.targetLanguage, dd, now⟩] }).savedWords t lang).length ≤ 1
                by_cases hcond : (tm.isEmpty || s.isLoading) = true
                · rw [if_pos hcond]; exact h
                · rw [if_neg hcond]
                  by_cases hsave : isAlreadySaved s.savedWords tm
                      (effectiveSourceLanguage s.detectedSourceLanguage) = true
                  · rw [if_pos hsave]; exact h
                  · rw [if_neg hsave]
                    show (pairEntries (s.savedWords ++
                        [⟨tm, effectiveSourceLanguage s.detectedSourceLanguage,
                          s.targetLanguage, dd, now⟩]) t lang).length ≤ 1
                    rw [pairEntries_append, List.length_append]
                    by_cases hpred : ((tm == t) &&
                        (effectiveSourceLanguage s.detectedSourceLanguage == lang)) = true
                    · have hp2 := hpred
                      rw [Bool.and_eq_true, beq_iff_eq, beq_iff_eq] at hp2
                      obtain ⟨h1, h2⟩ := hp2
                      have h0 : pairEntries s.savedWords tm
                          (effectiveSourceLanguage s.detectedSourceLanguage) = [] :=
                        (isAlreadySaved_false_iff _ _ _).mp (Bool.not_eq_true _ ▸ hsave)
                      rw [h1, h2] at h0
                      rw [h0]
                      simp [pairEntries, List.filter, hpred]
                    · have hfalse : ((tm == t) &&
                          (effectiveSourceLanguage s.detectedSourceLanguage == lang)) = false :=
                        Bool.eq_false_iff.mpr hpred
                      have hzero : pairEntries
                          [(⟨tm, effectiveSourceLanguage s.detectedSourceLanguage,
                            s.targetLanguage, dd, now⟩ : SavedWord)] t lang = [] := by
                        simp only [pairEntries, List.filter]
                        rw [hfalse]
                      rw [hzero]
                      simpa using h

/-- A concrete state with a displayed lookup result for `"hola"`: the term
was clicked and its lookup resolved. -/
def saveScenarioState : AppState :=
  step (step initState (.termClick "hola" Language.SPANISH Language.ENGLISH))
    (.lookupReturn (some samplePayload))

theorem save_idempotent_witness :
    saveScenarioState.selectedTerm = some "hola" ∧
    ("hola" : String).isEmpty = false ∧
    saveScenarioState.wordDetails = some samplePayload ∧
    saveScenarioState.isLoading = false ∧
    pairEntries saveScenarioState.savedWords "hola"
      (effectiveSourceLanguage saveScenarioState.detectedSourceLanguage) = [] ∧
    ((step (step saveScenarioState (.saveWord 1)) (.saveWord 2)).savedWords =
        (step saveScenarioState (.saveWord 1)).savedWords ∧
     pairEntries (step (step saveScenarioState (.saveWord 1)) (.saveWord 2)).savedWords "hola"
         (effectiveSourceLanguage saveScenarioState.detectedSourceLanguage) =
       [⟨"hola", effectiveSourceLanguage saveScenarioState.detectedSourceLanguage,
         saveScenarioState.targetLanguage, samplePayload, 1⟩]) :=
  ⟨by decide, by decide, by decide, by decide, by decide,
   save_idempotent.1 saveScenarioState "hola" samplePayload 1 2
     (by decide) (by decide) (by decide) (by decide) (by decide)⟩

/-- C10 — The `sourceLanguage` recorded by `handleSaveWord` (and used by its
duplicate check) is the effective source language at the moment of the
save — the currently detected language, or the English fallback — not the
language that parameterized the lookup: if detection completes between the
lookup and the save, the entry is keyed under a language different from the
one the details were fetched with. -/
theorem saved_language_effective_at_save :
    ∀ (s₀ : AppState) (t : String) (d : WordDetail) (lang : Language)
      (c : String) (cs : List String) (n : Nat),
      s₀.detectedSourceLanguage = none → s₀.pendingLookups = [] →
      s₀.pendingDetectCalls = c :: cs → t.isEmpty = false →
      pairEntries s₀.savedWords t lang = [] → lang ≠ Language.ENGLISH →
      (let s₁ := step s₀ (.termClick t (effectiveSourceLanguage s₀.detectedSourceLanguage)
          s₀.targetLanguage)
       let s₂ := step s₁ (.detectCallReturn (some lang))
       let s₃ := step s₂ (.lookupReturn (some d))
       let s₄ := step s₃ (.saveWord n)
       s₁.pendingLookups = [(t, Language.ENGLISH, s₀.targetLanguage)] ∧
       s₃.wordDetails = some d ∧
       s₄.savedWords = s₀.savedWords ++ [⟨t, lang, s₀.targetLanguage, d, n⟩]) := by
  intro s₀ t d lang c cs n hdet hpl hpdc hemp hpair hlang
  have hsaved : isAlreadySaved s₀.savedWords t lang = false :=
    (isAlreadySaved_false_iff _ _ _).mpr hpair
  refine ⟨?_, ?_, ?_⟩
  · simp [step, hpl, hdet, effectiveSourceLanguage]
  · simp [step, hpl, hdet, hpdc, effectiveSourceLanguage]
  · simp [step, handleSaveWord, hpl, hdet, hpdc, hemp, hsaved, effectiveSourceLanguage]

/-- A concrete state with a `detectLanguage("hola")` call outstanding and
nothing detected yet. -/
def detectScenarioState : AppState :=
  step (step initState (.setInput "hola")) .detectTimerFire

theorem saved_language_effective_at_save_witness :
    detectScenarioState.detectedSourceLanguage = none ∧
    detectScenarioState.pendingLookups = [] ∧
    detectScenarioState.pendingDetectCalls = "hola" :: [] ∧
    ("hola" : String).isEmpty = false ∧
    pairEntries detectScenarioState.savedWords "hola" Language.SPANISH = [] ∧
    Language.SPANISH ≠ Language.ENGLISH ∧
    (let s₁ := step detectScenarioState (.termClick "hola"
        (effectiveSourceLanguage detectScenarioState.detectedSourceLanguage)
        detectScenarioState.targetLanguage)
     let s₂ := step s₁ (.detectCallReturn (some Language.SPANISH))
     let s₃ := step s₂ (.lookupReturn (some samplePayload))
     let s₄ := step s₃ (.saveWord 3)
     s₁.pendingLookups = [("hola", Language.ENGLISH, detectScenarioState.targetLanguage)] ∧
     s₃.wordDetails = some samplePayload ∧
     s₄.savedWords = detectScenarioState.savedWords ++
       [⟨"hola", Language.SPANISH, detectScenarioState.targetLanguage, samplePayload, 3⟩]) :=
  ⟨by decide, by decide, by decide, by decide, by decide, by decide,
   saved_language_effective_at_save detectScenarioState "hola" samplePayload Language.SPANISH
     "hola" [] 3 (by decide) (by decide) (by decide) (by decide) (by decide) (by decide)⟩

end AIProjects
